import Mathlib

/-!
Shallow embedding of the registration utilities of scikit-ued, for checking
the natural-language specification against the code.

Values are modelled as rationals (ℚ); one-dimensional arrays as `List ℚ`;
two-dimensional images as index functions `ℤ → ℤ → α` together with explicit
height/width bounds.

From `src/skued/time_series/robust.py` the function `mad` is embedded
directly.  The image-alignment functions (`shift_image`, `ialign`,
`itrack_peak`, `align`) are not present under `src/` — only their tests are —
so they are modelled from the specification, as marked in their doc comments.
-/

namespace Skued

/-- The numpy median `np.median`: sort the values, then take the middle
element (odd length) or the mean of the two middle elements (even length).
Embedded from the numpy semantics used by `robust.py`; on the empty list the
result is a junk value (numpy would produce NaN), never used by the theorems
below. -/
def median (l : List ℚ) : ℚ :=
  if l.length % 2 = 1 then (l.insertionSort (· ≤ ·)).getD (l.length / 2) 0
  else
    ((l.insertionSort (· ≤ ·)).getD (l.length / 2 - 1) 0 +
      (l.insertionSort (· ≤ ·)).getD (l.length / 2) 0) / 2

/-- The function `mad` from `src/skued/time_series/robust.py`:
`dev = np.array(arr, copy=True); dev -= np.median(dev); return np.abs(dev, out=dev)`. -/
def mad (arr : List ℚ) : List ℚ :=
  let dev := arr
  let m := median dev
  let dev := dev.map (fun x => x - m)
  dev.map (fun x => |x|)

/-- The call `mad(arr)` with the buffer discipline made explicit:
`np.array(arr, copy=True)` allocates a fresh buffer `dev`, all in-place steps
(`dev -= median`, `np.abs(dev, out=dev)`) write only to that copy, and the
caller's array is returned unchanged alongside the result. -/
def madCall (arr : List ℚ) : List ℚ × List ℚ :=
  let dev := arr
  let m := median dev
  let dev := dev.map (fun x => x - m)
  let dev := dev.map (fun x => |x|)
  (arr, dev)

/-- The two dtype kinds relevant to the in-place arithmetic of `mad`:
integer-kind buffers (`int*`, `bool`) and float-kind buffers. -/
inductive DType where
  | intLike
  | floatLike

/-- The call `mad(arr)` with the numpy dtype semantics that `robust.py` is
subject to made explicit: `np.array(arr, copy=True)` preserves the caller's
dtype, `np.median` always produces a float64 scalar, and the in-place
subtraction `dev -= np.median(dev)` must cast its float64 result back into
the buffer — numpy's `same_kind` casting rule rejects this for integer-kind
buffers (raising `TypeError`) and accepts it for float-kind buffers, after
which `np.abs(dev, out=dev)` (float into float) succeeds.  Values are exact
rationals as in `mad`; only the dtype-dependent error path is added. -/
def madTyped (d : DType) (arr : List ℚ) : Except String (List ℚ) := do
  let dev := arr
  let m := median dev
  let dev ← match d with
    | DType.intLike => Except.error "TypeError"
    | DType.floatLike => Except.ok (dev.map (fun x => x - m))
  Except.ok (dev.map (fun x => |x|))

/-- Modelled from the spec: `shift_image` (§4.4 Image Shifter) is not under
`src/` (only its tests are).  Contract, quoted: "pixel value at output location
`(r, c)` equals the (possibly interpolated) value of the input image at
`(r - row_shift, c - col_shift)` if that location falls within input bounds,
else `fill_value`".  The image is an index function on an `H × W` grid;
shifts are whole-pixel (at integer shifts the interpolated value is the exact
sample).  `fill` is polymorphic so that an unrepresentable fill value such as
NaN can be modelled as `none` over `Option ℚ`. -/
def shiftImage {α : Type} (H W : ℕ) (arr : ℤ → ℤ → α) (rowShift colShift : ℤ)
    (fill : α) : ℤ → ℤ → α :=
  fun r c =>
    if 0 ≤ r - rowShift ∧ r - rowShift < (H : ℤ) ∧
       0 ≤ c - colShift ∧ c - colShift < (W : ℤ) then
      arr (r - rowShift) (c - colShift)
    else fill

/-- Modelled from the spec: `shift_image` at a fractional shift, with the
spec's minimum interpolation guarantee (§4.4: "Interpolation must support
fractional shifts (order ≥ 1, i.e., at least bilinear)").  The source
location `(r - row_shift, c - col_shift)` is read by bilinear interpolation
between the four surrounding grid points when it lies within bounds;
otherwise the fill value is returned. -/
def shiftImageBilinear (H W : ℕ) (arr : ℤ → ℤ → ℚ) (rowShift colShift : ℚ)
    (fill : ℚ) : ℤ → ℤ → ℚ :=
  fun r c =>
    let y : ℚ := (r : ℚ) - rowShift
    let x : ℚ := (c : ℚ) - colShift
    if 0 ≤ y ∧ y ≤ (H : ℚ) - 1 ∧ 0 ≤ x ∧ x ≤ (W : ℚ) - 1 then
      (1 - (y - ⌊y⌋)) * ((1 - (x - ⌊x⌋)) * arr ⌊y⌋ ⌊x⌋ +
          (x - ⌊x⌋) * arr ⌊y⌋ (⌊x⌋ + 1)) +
        (y - ⌊y⌋) * ((1 - (x - ⌊x⌋)) * arr (⌊y⌋ + 1) ⌊x⌋ +
          (x - ⌊x⌋) * arr (⌊y⌋ + 1) (⌊x⌋ + 1))
    else fill

/-- Modelled from the spec: `align` (§4.5) is not under `src/`.  Quoted:
"Computes `shift = diff_register(image, reference, mask)`, returns
`shift_image(image, shift, fill_value)`."  The shift estimator
`diff_register` (§4.2–§4.3, masked phase correlation) is likewise absent and
is abstracted as the parameter `register`, since only the composition matters
for the claims below. -/
def alignImg (register : (ℤ → ℤ → ℚ) → (ℤ → ℤ → ℚ) → ℤ × ℤ) (H W : ℕ)
    (image reference : ℤ → ℤ → ℚ) (fill : ℚ) : ℤ → ℤ → ℚ :=
  shiftImage H W image (register image reference).1 (register image reference).2 fill

/-- Modelled from the spec: `ialign` (§4.5) is not under `src/`.  Quoted:
"produces a lazy sequence of aligned images, one per input image, in input
order"; "if omitted, the first element of `images` is consumed from the
sequence and used as reference for all subsequent elements (and is itself
returned, unaligned, as the first output element)".  Finite input sequences
are modelled as lists. -/
def ialign (register : (ℤ → ℤ → ℚ) → (ℤ → ℤ → ℚ) → ℤ × ℤ) (H W : ℕ)
    (fill : ℚ) (reference : Option (ℤ → ℤ → ℚ)) (images : List (ℤ → ℤ → ℚ)) :
    List (ℤ → ℤ → ℚ) :=
  match reference with
  | some ref => images.map (fun im => alignImg register H W im ref fill)
  | none =>
    match images with
    | [] => []
    | first :: rest => first :: rest.map (fun im => alignImg register H W im first fill)

/-- Modelled from the spec: the intensity-weighted centroid (§4.6, "compute an
intensity-weighted centroid (center of mass) of the cropped region") over the
sub-region of an image selected by explicit row and column index lists. -/
def centerOfMass (rows cols : List ℤ) (im : ℤ → ℤ → ℚ) : ℚ × ℚ :=
  let total := (rows.map (fun i => (cols.map (fun j => im i j)).sum)).sum
  let rsum := (rows.map (fun (i : ℤ) => (cols.map (fun j => (i : ℚ) * im i j)).sum)).sum
  let csum := (rows.map (fun i => (cols.map (fun (j : ℤ) => (j : ℚ) * im i j)).sum)).sum
  (rsum / total, csum / total)

/-- Modelled from the spec: `itrack_peak` (§4.6) is not under `src/`.  Quoted:
"lazy sequence of `(row_shift, col_shift)` pairs, one per input image, each
describing the peak's displacement relative to the peak location in the first
image of the sequence". -/
def itrack_peak (rows cols : List ℤ) (images : List (ℤ → ℤ → ℚ)) :
    List (ℚ × ℚ) :=
  match images with
  | [] => []
  | first :: _ =>
    let c0 := centerOfMass rows cols first
    images.map (fun im =>
      let c := centerOfMass rows cols im
      (c.1 - c0.1, c.2 - c0.2))

example : median [(3 : ℚ), 1, 2] = 2 := by
  norm_num [median, List.insertionSort, List.orderedInsert]

example : median [(1 : ℚ), 2, 3, 4] = 5 / 2 := by
  norm_num [median, List.insertionSort, List.orderedInsert]

example : mad [(3 : ℚ), 1, 2] = [1, 1, 0] := by
  norm_num [mad, median, List.insertionSort, List.orderedInsert]

theorem getD_of_lt (l : List ℚ) (d : ℚ) {i : ℕ} (h : i < l.length) :
    l.getD i d = l[i] := by
  simp [List.getD_eq_getElem?_getD, List.getElem?_eq_getElem h]

theorem getD_map (f : ℚ → ℚ) (l : List ℚ) {i : ℕ} (h : i < l.length) :
    (l.map f).getD i 0 = f (l.getD i 0) := by
  rw [getD_of_lt _ _ (by simpa using h), getD_of_lt _ _ h]
  simp

theorem getD_reverse (l : List ℚ) {i : ℕ} (h : i < l.length) :
    l.reverse.getD i 0 = l.getD (l.length - 1 - i) 0 := by
  rw [getD_of_lt _ _ (by simpa using h), getD_of_lt _ _ (by omega)]
  exact List.getElem_reverse (by simpa using h)

theorem sort_map_mono (f : ℚ → ℚ) (hf : ∀ a b : ℚ, a ≤ b → f a ≤ f b)
    (l : List ℚ) :
    (l.map f).insertionSort (· ≤ ·) = (l.insertionSort (· ≤ ·)).map f := by
  refine List.eq_of_perm_of_sorted ?_ (List.sorted_insertionSort _ _) ?_
  · exact (List.perm_insertionSort _ _).trans
      (((List.perm_insertionSort _ l).map f).symm)
  · exact List.Pairwise.map f hf (List.sorted_insertionSort _ l)

theorem sort_map_anti (f : ℚ → ℚ) (hf : ∀ a b : ℚ, a ≤ b → f b ≤ f a)
    (l : List ℚ) :
    (l.map f).insertionSort (· ≤ ·) =
      ((l.insertionSort (· ≤ ·)).map f).reverse := by
  refine List.eq_of_perm_of_sorted ?_ (List.sorted_insertionSort _ _) ?_
  · exact (List.perm_insertionSort _ _).trans
      ((((List.perm_insertionSort _ l).map f).symm).trans
        (List.reverse_perm _).symm)
  · exact List.pairwise_reverse.mpr (List.Pairwise.map f hf (List.sorted_insertionSort _ l))

theorem median_map_mono (f : ℚ → ℚ) (hf : ∀ a b : ℚ, a ≤ b → f a ≤ f b)
    (havg : ∀ a b : ℚ, (f a + f b) / 2 = f ((a + b) / 2))
    (l : List ℚ) (hl : l ≠ []) :
    median (l.map f) = f (median l) := by
  have hsort := sort_map_mono f hf l
  have hpos : 0 < l.length := List.length_pos.mpr hl
  have hslen : (l.insertionSort (· ≤ ·)).length = l.length :=
    List.length_insertionSort _ _
  unfold median
  rw [List.length_map, hsort]
  by_cases hpar : l.length % 2 = 1
  · rw [if_pos hpar, if_pos hpar, getD_map _ _ (by omega)]
  · rw [if_neg hpar, if_neg hpar,
      getD_map _ _ (by omega), getD_map _ _ (by omega), havg]

theorem median_map_neg (l : List ℚ) :
    median (l.map (fun x => -x)) = -median l := by
  rcases eq_or_ne l [] with rfl | hl
  · simp [median]
  have hsort := sort_map_anti (fun x => -x) (fun a b hab => by dsimp only; linarith) l
  have hpos : 0 < l.length := List.length_pos.mpr hl
  have hslen : (l.insertionSort (· ≤ ·)).length = l.length :=
    List.length_insertionSort _ _
  have hmlen : ((l.insertionSort (· ≤ ·)).map (fun x => -x)).length = l.length := by
    simp [hslen]
  unfold median
  rw [List.length_map, hsort]
  by_cases hpar : l.length % 2 = 1
  · rw [if_pos hpar, if_pos hpar, getD_reverse _ (by omega),
      getD_map _ _ (by omega), hmlen,
      show l.length - 1 - l.length / 2 = l.length / 2 by omega]
  · rw [if_neg hpar, if_neg hpar, getD_reverse _ (by omega),
      getD_reverse _ (by omega), getD_map _ _ (by omega),
      getD_map _ _ (by omega), hmlen,
      show l.length - 1 - (l.length / 2 - 1) = l.length / 2 by omega,
      show l.length - 1 - l.length / 2 = l.length / 2 - 1 by omega]
    ring

theorem median_map_smul (c : ℚ) (l : List ℚ) :
    median (l.map (fun x => c * x)) = c * median l := by
  rcases eq_or_ne l [] with rfl | hl
  · simp [median]
  rcases le_or_lt 0 c with hc | hc
  · exact median_map_mono (fun x : ℚ => c * x)
      (fun a b hab => by simpa using mul_le_mul_of_nonneg_left hab hc)
      (fun a b => by ring) l hl
  · have hfun : (fun x : ℚ => c * x) = (fun x : ℚ => -x) ∘ (fun x : ℚ => -c * x) := by
      funext x
      simp only [Function.comp_apply]
      ring
    rw [hfun, ← List.map_map, median_map_neg,
      median_map_mono (fun x : ℚ => -c * x)
        (fun a b hab => by
          simpa using mul_le_mul_of_nonneg_left hab (by linarith : (0 : ℚ) ≤ -c))
        (fun a b => by ring) l hl]
    ring

/-- C1: for every array `x` and every position `i`, `mad x` has the same
shape (length) as `x` and its element at `i` equals the absolute difference
between `x_i` and the median of the whole array. -/
theorem mad_elementwise (l : List ℚ) (i : ℕ) (h : i < l.length) :
    (mad l).length = l.length ∧ (mad l).getD i 0 = |l.getD i 0 - median l| := by
  constructor
  · simp [mad]
  · simp only [mad, List.map_map]
    rw [getD_map _ _ h]
    simp [Function.comp]

/-- Witness for C1 at the concrete input `[3, 1, 2]`, `i = 0`. -/
theorem mad_elementwise_witness :
    (mad [(3 : ℚ), 1, 2]).length = ([(3 : ℚ), 1, 2] : List ℚ).length ∧
    (mad [(3 : ℚ), 1, 2]).getD 0 0 =
      |([(3 : ℚ), 1, 2] : List ℚ).getD 0 0 - median [(3 : ℚ), 1, 2]| :=
  mad_elementwise [(3 : ℚ), 1, 2] 0 (by decide)

/-- C4 counterexample: for an integer-dtype input such as the array
`[1, 2, 3]`, the in-place subtraction `dev -= np.median(dev)` must write a
float64 result into the integer buffer, which numpy's `same_kind` casting
rule rejects — the call raises `TypeError` instead of returning.  This
refutes the claim that `mad` raises no error for any numeric dtype. -/
theorem mad_int_dtype_raises :
    madTyped DType.intLike [1, 2, 3] = Except.error "TypeError" := rfl

/-- C4 (amended): `mad` raises no error for float-dtype array inputs of any
shape — including empty and single-element arrays — and for every
single-element such input the output is the all-zeros array of the same
shape; integer-dtype inputs, however, raise `TypeError` at the in-place
median subtraction. -/
theorem mad_float_no_error : ∀ (a : ℚ) (l : List ℚ),
    madTyped DType.floatLike l = Except.ok (mad l) ∧
    madTyped DType.floatLike [a] = Except.ok [0] ∧
    madTyped DType.floatLike ([] : List ℚ) = Except.ok [] := by
  intro a l
  refine ⟨rfl, ?_, rfl⟩
  have h1 : mad [a] = [0] := by
    simp [mad, median, List.insertionSort, List.orderedInsert]
  calc madTyped DType.floatLike [a] = Except.ok (mad [a]) := rfl
    _ = Except.ok [0] := by rw [h1]

/-- C5: the call `mad(arr)` returns the caller's array unchanged in its first
component (the in-place subtraction and absolute value act only on the
internal copy made by `np.array(arr, copy=True)`), so the input — writable or
read-only — is never written through. -/
theorem mad_no_mutation :
    ∀ arr : List ℚ, (madCall arr).1 = arr ∧ (madCall arr).2 = mad arr :=
  fun _ => ⟨rfl, rfl⟩

/-- C9: `mad` is invariant under constant translation of its input: adding a
constant `c` to every element leaves the result unchanged, because the median
shifts by exactly `c`. -/
theorem mad_translation_invariant (l : List ℚ) (c : ℚ) :
    mad (l.map (fun x => x + c)) = mad l := by
  rcases eq_or_ne l [] with rfl | hl
  · rfl
  have hmed := median_map_mono (fun x : ℚ => x + c)
    (fun a b hab => by simpa using add_le_add_right hab c)
    (fun a b => by ring) l hl
  simp only [mad, List.map_map]
  refine List.map_congr_left (fun x hx => ?_)
  simp only [Function.comp_apply, hmed]
  congr 1
  ring

/-- C10: `mad` is absolutely homogeneous: scaling every element by `c` scales
every element of the result by `|c|`. -/
theorem mad_abs_homogeneous (l : List ℚ) (c : ℚ) :
    mad (l.map (fun x => c * x)) = (mad l).map (fun x => |c| * x) := by
  have hmed := median_map_smul c l
  simp only [mad, List.map_map]
  refine List.map_congr_left (fun x hx => ?_)
  simp only [Function.comp_apply, hmed]
  rw [show c * x - c * median l = c * (x - median l) by ring, abs_mul]

/-- C3 counterexample: under the specified contract (output `(r, c)` reads the
input at `(r - row_shift, c - col_shift)`), shifting a NaN-free 12×12 image by
`(row_shift, col_shift) = (0, 10)` with fill NaN (modelled as `none`)
produces NaN at position `(11, 0)` — outside the first 10 rows — and a
non-NaN value at position `(0, 11)` — inside the first 10 rows.  Both refute
the claim that the NaN band is exactly the first 10 rows. -/
theorem shift_image_rows_counterexample :
    shiftImage 12 12 (fun _ _ => some (1 : ℚ)) 0 10 none 11 0 = none ∧
    shiftImage 12 12 (fun _ _ => some (1 : ℚ)) 0 10 none 0 11 = some 1 := by
  constructor
  · simp only [shiftImage]
    rw [if_neg (by omega)]
  · simp only [shiftImage]
    rw [if_pos (by omega)]

/-- C3 (amended): the output of `shift_image` at `(r, c)` equals the input at
`(r - row_shift, c - col_shift)` when that location is within bounds and the
fill value otherwise; consequently, for a NaN-free input, shifting by
`(0, 10)` with fill NaN makes the output NaN exactly on the first 10 columns
(the band is along the column axis, since the shifted component is the column
shift). -/
theorem shift_image_contract_and_fill_band (H W : ℕ) (arr : ℤ → ℤ → ℚ)
    (r c : ℤ) (h1 : 0 ≤ r) (h2 : r < (H : ℤ)) (h3 : 0 ≤ c) (h4 : c < (W : ℤ)) :
    (∀ (fill : Option ℚ) (rs cs : ℤ),
        shiftImage H W (fun i j => some (arr i j)) rs cs fill r c =
          if 0 ≤ r - rs ∧ r - rs < (H : ℤ) ∧ 0 ≤ c - cs ∧ c - cs < (W : ℤ) then
            some (arr (r - rs) (c - cs))
          else fill) ∧
    (shiftImage H W (fun i j => some (arr i j)) 0 10 none r c = none ↔ c < 10) := by
  refine ⟨fun fill rs cs => rfl, ?_⟩
  by_cases h : c < 10
  · simp only [shiftImage]
    rw [if_neg (by omega)]
    simp [h]
  · simp only [shiftImage]
    rw [if_pos (by omega)]
    simp [h]

/-- Witness for C3 (amended) on a concrete 12×12 image at position `(3, 4)`. -/
theorem shift_image_contract_and_fill_band_witness :
    (∀ (fill : Option ℚ) (rs cs : ℤ),
        shiftImage 12 12 (fun i j => some ((fun _ _ => (1 : ℚ)) i j)) rs cs fill 3 4 =
          if 0 ≤ (3 : ℤ) - rs ∧ (3 : ℤ) - rs < ((12 : ℕ) : ℤ) ∧
             0 ≤ (4 : ℤ) - cs ∧ (4 : ℤ) - cs < ((12 : ℕ) : ℤ) then
            some ((fun _ _ => (1 : ℚ)) ((3 : ℤ) - rs) ((4 : ℤ) - cs))
          else fill) ∧
    (shiftImage 12 12 (fun i j => some ((fun _ _ => (1 : ℚ)) i j)) 0 10 none 3 4 = none ↔
      (4 : ℤ) < 10) :=
  shift_image_contract_and_fill_band 12 12 (fun _ _ => (1 : ℚ)) 3 4
    (by decide) (by decide) (by decide) (by decide)

/-- C6 counterexample: at a fractional shift the claimed interior equality
fails.  On a 5×5 image that is `1` at pixel `(2, 2)` and `0` elsewhere,
shifting by `(1/2, 0)` with bilinear interpolation and then by `(-1/2, 0)`
yields `1/2` at the interior pixel `(2, 2)` where the original value is `1` —
a deviation of `1/2` on unit-scale data, far beyond floating tolerance: the
round trip is a smoothing operator, not the identity. -/
theorem shift_image_fractional_counterexample :
    shiftImageBilinear 5 5
        (shiftImageBilinear 5 5 (fun i j => if i = 2 ∧ j = 2 then (1 : ℚ) else 0)
          (1 / 2) 0 0)
        (-(1 / 2)) 0 0 2 2 = 1 / 2 ∧
    (fun i j : ℤ => if i = 2 ∧ j = 2 then (1 : ℚ) else 0) 2 2 = 1 := by
  constructor
  · have hf1 : ⌊(3 / 2 : ℚ)⌋ = 1 := by rw [Int.floor_eq_iff]; norm_num
    have hf2 : ⌊(5 / 2 : ℚ)⌋ = 2 := by rw [Int.floor_eq_iff]; norm_num
    norm_num [shiftImageBilinear, hf1, hf2]
  · norm_num

/-- C6 (amended): for whole-pixel shifts, shifting by `(dy, dx)` and then by
`(-dy, -dx)` restores the original pixel value exactly at every interior
position — a position whose forward image also lies within bounds (so it is
unaffected by the fill bands at the edges).  For fractional shifts the round
trip interpolates twice and interior equality fails in general. -/
theorem shift_image_back_and_forth (H W : ℕ) (arr : ℤ → ℤ → ℚ) (fill : ℚ)
    (dy dx r c : ℤ)
    (h1 : 0 ≤ r) (h2 : r < (H : ℤ)) (h3 : 0 ≤ c) (h4 : c < (W : ℤ))
    (h5 : 0 ≤ r + dy) (h6 : r + dy < (H : ℤ)) (h7 : 0 ≤ c + dx) (h8 : c + dx < (W : ℤ)) :
    shiftImage H W (shiftImage H W arr dy dx fill) (-dy) (-dx) fill r c = arr r c := by
  simp only [shiftImage]
  rw [if_pos (by omega), if_pos (by omega),
    show r - -dy - dy = r by ring, show c - -dx - dx = c by ring]

/-- Witness for C6: a 4×4 image, shift `(1, 1)` then `(-1, -1)`, interior
position `(2, 2)`. -/
theorem shift_image_back_and_forth_witness :
    shiftImage 4 4 (shiftImage 4 4 (fun i j => (i : ℚ) + (j : ℚ)) 1 1 0) (-1) (-1) 0 2 2 =
      ((2 : ℤ) : ℚ) + ((2 : ℤ) : ℚ) :=
  shift_image_back_and_forth 4 4 (fun i j => (i : ℚ) + (j : ℚ)) 0 1 1 2 2
    (by decide) (by decide) (by decide) (by decide)
    (by decide) (by decide) (by decide) (by decide)

/-- C7: if the shift magnitude exceeds the image dimensions in both axes,
every pixel of the output grid equals the fill value. -/
theorem shift_image_out_of_bounds_fill (H W : ℕ) (arr : ℤ → ℤ → ℚ) (fill : ℚ)
    (dy dx r c : ℤ)
    (h1 : 0 ≤ r) (h2 : r < (H : ℤ)) (h3 : 0 ≤ c) (h4 : c < (W : ℤ))
    (hdy : (H : ℤ) < |dy|) (hdx : (W : ℤ) < |dx|) :
    shiftImage H W arr dy dx fill r c = fill := by
  simp only [shiftImage]
  rcases lt_abs.mp hdy with h | h
  · rw [if_neg (by omega)]
  · rw [if_neg (by omega)]

/-- Witness for C7: a 4×4 image shifted by `(9, 9)`, checked at `(0, 0)`. -/
theorem shift_image_out_of_bounds_fill_witness :
    shiftImage 4 4 (fun _ _ => (7 : ℚ)) 9 9 0 0 0 = 0 :=
  shift_image_out_of_bounds_fill 4 4 (fun _ _ => (7 : ℚ)) 0 9 9 0 0
    (by decide) (by decide) (by decide) (by decide) (by decide) (by decide)

/-- C8: `ialign` and `itrack_peak` produce exactly as many outputs as inputs,
and the i-th output is computed from the i-th input (input order preserved):
with an explicit reference, `ialign` maps each image to its aligned version;
without one, the first image is returned unaligned and each later image is
aligned to it; `itrack_peak` maps each image to the displacement of its
centroid from the first image's centroid. -/
theorem sequence_length_and_order (register : (ℤ → ℤ → ℚ) → (ℤ → ℤ → ℚ) → ℤ × ℤ)
    (H W : ℕ) (fill : ℚ) (reference : Option (ℤ → ℤ → ℚ))
    (images : List (ℤ → ℤ → ℚ)) (rows cols : List ℤ) :
    (ialign register H W fill reference images).length = images.length ∧
    (itrack_peak rows cols images).length = images.length ∧
    (∀ ref, ialign register H W fill (some ref) images =
        images.map (fun im => alignImg register H W im ref fill)) ∧
    (∀ (first : ℤ → ℤ → ℚ) (rest : List (ℤ → ℤ → ℚ)),
        ialign register H W fill none (first :: rest) =
          first :: rest.map (fun im => alignImg register H W im first fill)) ∧
    (∀ (first : ℤ → ℤ → ℚ) (rest : List (ℤ → ℤ → ℚ)),
        itrack_peak rows cols (first :: rest) =
          (first :: rest).map (fun im =>
            ((centerOfMass rows cols im).1 - (centerOfMass rows cols first).1,
              (centerOfMass rows cols im).2 - (centerOfMass rows cols first).2))) := by
  refine ⟨?_, ?_, fun ref => rfl, fun first rest => rfl, fun first rest => rfl⟩
  · cases reference with
    | some ref => simp [ialign]
    | none => cases images <;> simp [ialign]
  · cases images <;> simp [itrack_peak]

end Skued
